import Mathlib

/-!
# Verification of the structural query layer of code-graph-rag

Shallow embedding of the result-formatting, truncation, validation and
deduplication logic of `weavr/tools/structural_queries.py`, and of the
HTTP response envelope of `codebase_rag/http/models.py` /
`http_server/models.py`, together with theorems settling the frozen
claims about them.

Conventions of the embedding:
* Python strings are Lean `String`s; the helpers `pyUpper`, `pyStrip` and
  `strContainsSub` mirror `str.upper()`, `str.strip()` and the `in`
  operator on the ASCII inputs the code works with.
* Python dicts whose keys are fixed are Lean structures; an optional dict
  key is an `Option` field (`none` = key absent).
* The graph store is external: a tool's store interaction is modelled by
  an outcome type whose constructors separate "returned an error response
  without touching the store" from "issues a statement to the store", and
  rows already fetched from the store are plain inputs.
* Wall-clock execution times (floats) are omitted from formatted results;
  no claim concerns them.
-/

namespace CodeGraphRag

/-! ## String helpers mirroring the Python primitives -/

/-- Boolean list-prefix test used by the substring scan. -/
def listStartsWith : List Char → List Char → Bool
  | [], _ => true
  | _ :: _, [] => false
  | a :: as, b :: bs => a == b && listStartsWith as bs

/-- Helper `listContainsSub hay needle` mirrors Python `needle in hay` on char lists. -/
def listContainsSub : List Char → List Char → Bool
  | [], needle => listStartsWith needle []
  | c :: rest, needle => listStartsWith needle (c :: rest) || listContainsSub rest needle

/-- Helper `strContainsSub hay needle` mirrors Python `needle in hay`. -/
def strContainsSub (hay needle : String) : Bool :=
  listContainsSub hay.data needle.data

/-- Mirrors Python `str.startswith(pre)`. -/
def pyStartsWith (s pre : String) : Bool :=
  listStartsWith pre.data s.data

/-- Mirrors Python `str.upper()` (ASCII behaviour, as used by the code). -/
def pyUpper (s : String) : String :=
  ⟨s.data.map Char.toUpper⟩

/-- Mirrors Python `str.strip()`: drop leading and trailing whitespace. -/
def pyStrip (s : String) : String :=
  ⟨((s.data.dropWhile Char.isWhitespace).reverse.dropWhile Char.isWhitespace).reverse⟩

/-! ## Error responses (`create_error_response`)

`suggestion` and `provided_input` are carried by the source as extra
response keys; they do not affect any claim and `provided_input` (a dict
of arbitrary user inputs) is omitted. -/

structure ErrorResponse where
  error : String
  error_code : String
  suggestion : Option String := none
  deriving DecidableEq, Repr

/-- Embeds `create_error_response(error_type, message, suggestion)`. -/
def create_error_response (error_type : String) (message : String)
    (suggestion : Option String := none) : ErrorResponse :=
  { error := message, error_code := error_type, suggestion := suggestion }

/-! ## Truncation logic (`apply_truncation`, `create_truncation_message`) -/

inductive QueryType where
  | expert
  | prebuilt
  deriving DecidableEq, Repr

/-- The `default_limits` table inside `apply_truncation`. -/
def default_limits : QueryType → Nat
  | .expert => 50
  | .prebuilt => 100

/-- Embeds `apply_truncation(results, limit, query_type)`:
returns `(truncated_results, was_truncated, total_count)`. -/
def apply_truncation {α : Type} (results : List α) (limit : Int)
    (query_type : QueryType) : List α × Bool × Nat :=
  let effective_limit : Nat := if limit > 0 then limit.toNat else default_limits query_type
  let total_count := results.length
  let truncated := total_count > effective_limit
  if truncated then (results.take effective_limit, true, total_count)
  else (results, false, total_count)

/-- Embeds `create_truncation_message(shown_count, total_count, query_type)`. -/
def create_truncation_message (shown_count total_count : Nat)
    (query_type : String := "query") : String :=
  if shown_count ≥ total_count then
    "All " ++ toString total_count ++ " results shown."
  else
    "Showing " ++ toString shown_count ++ " of " ++ toString total_count ++
      " results (" ++ toString (total_count - shown_count) ++ " omitted). " ++
      "Refine your " ++ query_type ++ " for more specific results."

/-! ## `format_cypher_results` and `StructuralQueryTool.format_results`

The Python functions build nested dicts; the structures below carry the
same keys (metadata flattened).  Neither adds a truncation-hint key, so
`truncation_message` is `none` for them; the expert tool sets it. -/

structure CypherFormatted (α : Type) where
  rows : List α
  columns : List String
  row_count : Nat
  total_count : Nat
  truncated : Bool
  deriving DecidableEq, Repr

/-- Embeds `format_cypher_results(rows, columns, _, truncate_limit)`. -/
def format_cypher_results {α : Type} (rows : List α) (columns : List String)
    (truncate_limit : Nat := 100) : CypherFormatted α :=
  let total_count := rows.length
  let truncated := total_count > truncate_limit
  let limited_rows := if truncated then rows.take truncate_limit else rows
  { rows := limited_rows, columns := columns, row_count := limited_rows.length,
    total_count := total_count, truncated := truncated }

/-- The `truncate_limit` field of every prebuilt tool dataclass. -/
def prebuilt_truncate_limit : Nat := 100

/-- The `truncate_limit` field of the `ExpertModeQuery` dataclass. -/
def expert_truncate_limit : Nat := 50

structure PrebuiltFormatted (α : Type) where
  query : String
  results : List α
  row_count : Nat
  total_count : Nat
  truncated : Bool
  /-- Note `format_results` never adds a truncation-hint key; kept to make the
  absence of the hint expressible. Always `none`. -/
  truncation_message : Option String := none
  deriving DecidableEq, Repr

/-- Embeds `StructuralQueryTool.format_results(rows, _, query_description)` with the
tool's `truncate_limit` passed explicitly (every prebuilt tool uses 100). -/
def format_results {α : Type} (rows : List α) (truncate_limit : Int)
    (query_description : String) : PrebuiltFormatted α :=
  let r := apply_truncation rows truncate_limit .prebuilt
  { query := query_description, results := r.1, row_count := r.1.length,
    total_count := r.2.2, truncated := r.2.1, truncation_message := none }

/-! ## Expert-mode query validation (`ExpertModeQuery`) -/

/-- The `destructive_keywords` list of `_validate_cypher_query`. -/
def destructive_keywords : List String :=
  ["DELETE", "DETACH DELETE", "DROP", "CREATE INDEX", "CREATE CONSTRAINT"]

/-- Embeds `ExpertModeQuery._validate_cypher_query(query)`: `some err` when the
query is rejected, `none` when it is considered valid.  (The LIMIT check
only logs a warning and is omitted; error-message texts abbreviated.) -/
def validate_cypher_query (query : String) : Option ErrorResponse :=
  let query_upper := pyStrip (pyUpper query)
  if strContainsSub query_upper "CREATE" &&
      !strContainsSub query_upper "CREATE INDEX" &&
      !strContainsSub query_upper "CREATE CONSTRAINT" then
    some (create_error_response "FORBIDDEN_OPERATION"
      "Destructive operation CREATE is not allowed in expert mode"
      (some "Expert mode is read-only. Use MATCH, RETURN, WHERE, ORDER BY, LIMIT for queries."))
  else
    match destructive_keywords.find? (fun kw => strContainsSub query_upper kw) with
    | some kw =>
      some (create_error_response "FORBIDDEN_OPERATION"
        ("Destructive operation " ++ kw ++ " is not allowed in expert mode")
        (some "Expert mode is read-only. Use MATCH, RETURN, WHERE, ORDER BY, LIMIT for queries."))
    | none =>
      if strContainsSub query_upper " SET " then
        some (create_error_response "FORBIDDEN_OPERATION"
          "SET operations are not allowed in expert mode (read-only)"
          (some "Use MATCH and RETURN to query the graph. Modifications are not permitted."))
      else if strContainsSub query_upper "MERGE" then
        some (create_error_response "FORBIDDEN_OPERATION"
          "MERGE operations are not allowed in expert mode (read-only)"
          (some "Use MATCH to find existing nodes. Node creation is not permitted."))
      else
        none

/-- JSON values, for the `parameters` argument of the ad-hoc tool. -/
inductive JsonVal where
  | null
  | bool (b : Bool)
  | num (n : Int)
  | str (s : String)
  | arr (xs : List JsonVal)
  | obj (fields : List (String × JsonVal))

/-- Modelled from the spec: a primitive JSON value is one that is neither a
nested object nor an array.  (The source has no such check; this predicate
only states the claims.) -/
def JsonVal.isPrimitive : JsonVal → Bool
  | .arr _ => false
  | .obj _ => false
  | _ => true

/-- Outcome of `ExpertModeQuery.execute` up to its store interaction:
either an error response is returned without touching the store, or the
query and parameters are handed to `ingestor.execute_structural_query`. -/
inductive ExpertOutcome where
  | errorResponse (resp : ErrorResponse)
  | executesQuery (query : String) (params : List (String × JsonVal))

/-- Embeds `ExpertModeQuery.execute(ingestor, query, parameters, limit)`: the
validation phase before any store access. -/
def expert_execute (query : String) (parameters : Option (List (String × JsonVal)))
    (limit : Int) : ExpertOutcome :=
  if limit < 1 || limit > 1000 then
    .errorResponse (create_error_response "INVALID_PARAMETER"
      "limit must be between 1 and 1000"
      (some "Use smaller limit values to avoid overwhelming results. Default is 50."))
  else if (pyStrip query).data.isEmpty then
    .errorResponse (create_error_response "INVALID_QUERY" "Query cannot be empty"
      (some "Provide a valid Cypher query. See schema documentation for examples."))
  else
    match validate_cypher_query query with
    | some err => .errorResponse err
    | none => .executesQuery query (parameters.getD [])

/-! ## Whole-word occurrence (spec-side predicate for the ad-hoc safety claim) -/

/-- A word character, for word boundaries: letters, digits, underscore. -/
def isWordChar (c : Char) : Bool := c.isAlphanum || c == '_'

/-- A word boundary: the start/end of the string or a non-word character. -/
def boundaryOk : Option Char → Bool
  | none => true
  | some c => !isWordChar c

/-- Whether `needle` matches at the head of `hay` with a word boundary after it. -/
def wordMatchesHere (needle hay : List Char) : Bool :=
  listStartsWith needle hay && boundaryOk (hay.drop needle.length).head?

/-- Scan `hay` for a whole-word occurrence of `needle`; `prev` is the
character immediately before the current position. -/
def containsWholeWordAux (needle : List Char) : Option Char → List Char → Bool
  | prev, [] => boundaryOk prev && wordMatchesHere needle []
  | prev, c :: rest =>
    (boundaryOk prev && wordMatchesHere needle (c :: rest)) ||
      containsWholeWordAux needle (some c) rest

/-- Modelled from the spec: `hay` contains `word` as a case-insensitive
whole word (maximal run of word characters).  Used only to state the
ad-hoc safety claim; the source performs plain substring checks. -/
def containsWholeWordCI (hay word : String) : Bool :=
  containsWholeWordAux (pyUpper word).data none (pyUpper hay).data

/-- The keyword set named by the ad-hoc safety claim. -/
def mutation_keywords : List String :=
  ["CREATE", "MERGE", "DELETE", "SET", "REMOVE", "DROP"]

/-! ## HTTP response envelope (`codebase_rag/http/models.py`, `http_server/models.py`) -/

/-- The `ErrorCode` enum: its exact member set. -/
inductive ErrorCode where
  | TOOL_NOT_FOUND
  | INVALID_ARGUMENTS
  | EXECUTION_ERROR
  | INTERNAL_ERROR
  | TIMEOUT
  | RATE_LIMITED
  | SERVICE_UNAVAILABLE
  deriving DecidableEq, Repr

/-- The string value of each `ErrorCode` member. -/
def ErrorCode.val : ErrorCode → String
  | .TOOL_NOT_FOUND => "TOOL_NOT_FOUND"
  | .INVALID_ARGUMENTS => "INVALID_ARGUMENTS"
  | .EXECUTION_ERROR => "EXECUTION_ERROR"
  | .INTERNAL_ERROR => "INTERNAL_ERROR"
  | .TIMEOUT => "TIMEOUT"
  | .RATE_LIMITED => "RATE_LIMITED"
  | .SERVICE_UNAVAILABLE => "SERVICE_UNAVAILABLE"

/-- All members of the enum, in declaration order. -/
def ErrorCode.all : List ErrorCode :=
  [.TOOL_NOT_FOUND, .INVALID_ARGUMENTS, .EXECUTION_ERROR, .INTERNAL_ERROR,
    .TIMEOUT, .RATE_LIMITED, .SERVICE_UNAVAILABLE]

/-- The `ResponseEnvelope` fields used by `validate_xor`, plus `request_id`.
`timestamp` (wall clock) and `meta` are omitted; no claim concerns them. -/
structure ResponseEnvelope (T : Type) where
  success : Bool
  data : Option T := none
  error : Option String := none
  code : Option ErrorCode := none
  request_id : String
  deriving DecidableEq, Repr

/-- Embeds `ResponseEnvelope.validate_xor`: pydantic runs this `after`-validator on
every construction; a `ValueError` aborts construction. -/
def validate_xor {T : Type} (env : ResponseEnvelope T) :
    Except String (ResponseEnvelope T) :=
  if env.success then
    if env.data.isNone then .error "data must be present when success=true"
    else if env.error.isSome || env.code.isSome then
      .error "error and code must be null when success=true"
    else .ok env
  else
    if env.error.isNone || env.code.isNone then
      .error "error and code must be present when success=false"
    else if env.data.isSome then .error "data must be null when success=false"
    else .ok env

/-- Constructing a `ResponseEnvelope` = populating the fields and running
the `after`-validator. -/
def mkResponseEnvelope {T : Type} (success : Bool) (data : Option T)
    (error : Option String) (code : Option ErrorCode) (request_id : String) :
    Except String (ResponseEnvelope T) :=
  validate_xor { success := success, data := data, error := error,
                 code := code, request_id := request_id }

/-! ## Prebuilt-tool parameter validation

Each `execute` method validates its numeric parameters before building a
Cypher query; when validation passes the method calls
`ingestor.execute_structural_query`.  The outcome type separates the two;
`queriesStore` carries the qualified-name argument that reaches the store. -/

inductive PrebuiltOutcome where
  | errorResponse (resp : ErrorResponse)
  | queriesStore (qualified_name : String)
  deriving DecidableEq, Repr

/-- Embeds `FindCallersQuery.execute` up to its first store access: only
`max_depth` is validated; `function_name` is passed through unchecked. -/
def find_callers_execute (function_name : String) (max_depth : Int) : PrebuiltOutcome :=
  if max_depth < 1 || max_depth > 5 then
    .errorResponse (create_error_response "INVALID_PARAMETER"
      "max_depth must be between 1 and 5"
      (some "Use max_depth=1 for direct callers, max_depth=2-3 for impact analysis"))
  else
    .queriesStore function_name

/-- Embeds `CallGraphGeneratorQuery.execute`: parameter validation phase. -/
def call_graph_validate (entry_point : String) (max_depth max_nodes : Int) :
    PrebuiltOutcome :=
  if max_depth < 1 || max_depth > 5 then
    .errorResponse (create_error_response "INVALID_PARAMETER"
      "max_depth must be between 1 and 5"
      (some "Use max_depth=3 for typical call graphs. Higher values can exponentially increase result size."))
  else if max_nodes < 1 || max_nodes > 100 then
    .errorResponse (create_error_response "INVALID_PARAMETER"
      "max_nodes must be between 1 and 100"
      (some "Use max_nodes=50 for balanced detail. Increase cautiously for larger graphs."))
  else
    .queriesStore entry_point

/-- Embeds `ClassHierarchyQuery.execute`: parameter validation phase
(`direction` is checked first, then `max_depth`). -/
def class_hierarchy_validate (class_name direction : String) (max_depth : Int) :
    PrebuiltOutcome :=
  if !(direction == "up" || direction == "down" || direction == "both") then
    .errorResponse (create_error_response "INVALID_PARAMETER"
      "Invalid direction parameter. Must be up, down, or both"
      (some "Use direction=both to see complete hierarchy"))
  else if max_depth < 1 || max_depth > 10 then
    .errorResponse (create_error_response "INVALID_PARAMETER"
      "max_depth must be between 1 and 10"
      (some "Use max_depth=5 for typical hierarchies"))
  else
    .queriesStore class_name

/-- The `error_code` of an outcome, if it is an error response. -/
def PrebuiltOutcome.errCode : PrebuiltOutcome → Option String
  | .errorResponse r => some r.error_code
  | .queriesStore _ => none

/-! ## Deduplication (`InterfaceImplementationsQuery._deduplicate_implementations`) -/

/-- One implementation row as consumed by the deduplication step.
`short_name`, `file_path`, `line_start` ride along untouched. -/
structure ImplRow where
  class_name : String
  short_name : String
  depth : Nat
  file_path : Option String := none
  line_start : Option Nat := none
  deriving DecidableEq, Repr

/-- One step of the `unique` dict update: Python dicts keep insertion
order and update in place, so the dict is an association list keyed by
`class_name`.  An existing entry is replaced only when the new row has a
strictly smaller depth. -/
def dedupInsert : List ImplRow → ImplRow → List ImplRow
  | [], r => [r]
  | x :: xs, r =>
    if x.class_name = r.class_name then
      (if r.depth < x.depth then r else x) :: xs
    else
      x :: dedupInsert xs r

/-- The sort key comparison `(depth, class_name)` of the final `sorted`. -/
def implLe (a b : ImplRow) : Bool :=
  a.depth < b.depth || (a.depth == b.depth && a.class_name ≤ b.class_name)

/-- Embeds `_deduplicate_implementations(implementations)`. -/
def deduplicate_implementations (implementations : List ImplRow) : List ImplRow :=
  ((implementations.foldl dedupInsert []).mergeSort implLe)

/-- Invariant of the `unique` dict build: every accumulated entry comes
from the rows seen so far and carries the minimum depth for its class
name among them. -/
def MinAcc (seen acc : List ImplRow) : Prop :=
  ∀ y ∈ acc, y ∈ seen ∧ ∀ x ∈ seen, x.class_name = y.class_name → y.depth ≤ x.depth

/-- Invariant of the `unique` dict build: every class name seen so far
has an entry in the accumulator. -/
def NamesCover (seen acc : List ImplRow) : Prop :=
  ∀ x ∈ seen, x.class_name ∈ acc.map ImplRow.class_name

/-! ## Call graph assembly (`CallGraphGeneratorQuery`) -/

/-- One row of the `CALLS*` traversal result. -/
structure CallRow where
  entry_name : String
  called_name : String
  short_name : String
  node_type : List String
  file_path : Option String := none
  line_number : Option Nat := none
  depth : Nat := 1
  deriving DecidableEq, Repr

structure GraphNode where
  id : String
  name : String
  type : String
  file_path : Option String := none
  line_number : Option Nat := none
  deriving DecidableEq, Repr

structure GraphEdge where
  src : String
  dst : String
  call_type : String
  deriving DecidableEq, Repr

/-- Split a character list at `.`, mirroring Python `str.split(".")`. -/
def splitDotAux : List Char → List Char → List (List Char)
  | [], cur => [cur.reverse]
  | c :: rest, cur =>
    if c = '.' then cur.reverse :: splitDotAux rest []
    else splitDotAux rest (c :: cur)

/-- Last dotted component, mirroring `entry_point.split(".")[-1]`. -/
def lastComponent (s : String) : String :=
  ⟨(splitDotAux s.data []).getLastD s.data⟩

/-- The `nodes_dict` update: add the node only if its id is new
(insertion order preserved). -/
def addNodeIfNew (dict : List GraphNode) (n : GraphNode) : List GraphNode :=
  if dict.any (fun m => m.id == n.id) then dict else dict ++ [n]

/-- A called node as built inside `_extract_nodes_and_edges`
(`line_number` only accompanies a present `file_path`). -/
def rowToNode (row : CallRow) : GraphNode :=
  { id := row.called_name, name := row.short_name,
    type := row.node_type.headD "Function",
    file_path := row.file_path,
    line_number := if row.file_path.isSome then row.line_number else none }

/-- Embeds `CallGraphGeneratorQuery._extract_nodes_and_edges(results, entry_point)`:
the entry point is seeded as a node, each new `called_name` is appended,
and one `(entry_name, called_name)` edge is kept per distinct pair. -/
def extract_nodes_and_edges (results : List CallRow) (entry_point : String) :
    List GraphNode × List GraphEdge :=
  let init : List GraphNode :=
    match results with
    | [] => []
    | _ :: _ => [{ id := entry_point, name := lastComponent entry_point, type := "Function" }]
  let nodes := results.foldl (fun dict row => addNodeIfNew dict (rowToNode row)) init
  let edges := results.foldl
    (fun (acc : List GraphEdge) row =>
      if acc.any (fun e => e.src == row.entry_name && e.dst == row.called_name) then acc
      else acc ++ [{ src := row.entry_name, dst := row.called_name, call_type := "direct" }])
    []
  (nodes, edges)

/-- Embeds `CallGraphGeneratorQuery._truncate_nodes(nodes, max_nodes)`. -/
def truncate_nodes (nodes : List GraphNode) (max_nodes : Nat) :
    List GraphNode × Bool × Nat :=
  let total_count := nodes.length
  let was_truncated := total_count > max_nodes
  if was_truncated then (nodes.take max_nodes, true, total_count)
  else (nodes, false, total_count)

structure CallGraphResult where
  nodes : List GraphNode
  edges : List GraphEdge
  truncated : Bool
  total_nodes : Nat
  deriving DecidableEq, Repr

/-- Embeds `CallGraphGeneratorQuery._create_empty_graph_result(entry_point, ...)`. -/
def create_empty_graph_result (entry_point : String) : CallGraphResult :=
  { nodes := [{ id := entry_point, name := lastComponent entry_point, type := "Function" }],
    edges := [], truncated := false, total_nodes := 1 }

inductive CallGraphOutcome where
  | errorResponse (resp : ErrorResponse)
  | graph (r : CallGraphResult)
  deriving DecidableEq, Repr

/-- The graph assembly of `CallGraphGeneratorQuery.execute` once the
traversal returned a nonempty row set: extract nodes and edges, truncate
the node list to `max_nodes`, and keep only edges whose endpoints both
survived. -/
def call_graph_assemble (results : List CallRow) (entry_point : String)
    (max_nodes : Nat) : CallGraphResult :=
  let ne := extract_nodes_and_edges results entry_point
  let t := truncate_nodes ne.1 max_nodes
  let node_ids := t.1.map GraphNode.id
  let filtered_edges := ne.2.filter
    (fun e => node_ids.contains e.src && node_ids.contains e.dst)
  { nodes := t.1, edges := filtered_edges, truncated := t.2.1, total_nodes := t.2.2 }

/-- Embeds `CallGraphGeneratorQuery.execute`, with the traversal rows and the
existence of the entry point supplied as inputs (both come from the
store).  When the rows are empty and the entry point is missing, the
`NodeNotFoundError` is surfaced through `handle_node_not_found`. -/
def call_graph_execute (results : List CallRow) (entry_exists : Bool)
    (entry_point : String) (max_depth max_nodes : Int) : CallGraphOutcome :=
  if max_depth < 1 || max_depth > 5 then
    .errorResponse (create_error_response "INVALID_PARAMETER"
      "max_depth must be between 1 and 5")
  else if max_nodes < 1 || max_nodes > 100 then
    .errorResponse (create_error_response "INVALID_PARAMETER"
      "max_nodes must be between 1 and 100")
  else
    match results with
    | [] =>
      if entry_exists then .graph (create_empty_graph_result entry_point)
      else .errorResponse (create_error_response "NODE_NOT_FOUND"
        ("Function/Method " ++ entry_point ++ " not found in code graph."))
    | _ :: _ =>
      .graph (call_graph_assemble results entry_point max_nodes.toNat)

/-! ## Module exports (`ModuleExportsQuery.execute`) -/

/-- One row of the `DEFINES` traversal result. -/
structure ExportRow where
  export_name : String
  short_name : String
  type_labels : List String
  file_path : Option String := none
  line_number : Option Nat := none
  deriving DecidableEq, Repr

/-- One formatted result item. -/
structure ExportItem where
  export_qn : String
  name : String
  type : String
  file_path : Option String := none
  line_number : Option Nat := none
  deriving DecidableEq, Repr

def rowToItem (row : ExportRow) : ExportItem :=
  { export_qn := row.export_name, name := row.short_name,
    type := row.type_labels.headD "Unknown",
    file_path := row.file_path,
    line_number := if row.file_path.isSome then row.line_number else none }

/-- The formatting loop of `ModuleExportsQuery.execute`: a row is skipped
iff `include_private` is false and its short name starts with `_`. -/
def module_exports_filter (results : List ExportRow) (include_private : Bool) :
    List ExportItem :=
  (results.filter
      (fun row => include_private || !pyStartsWith row.short_name "_")).map rowToItem

/-- The rows `ModuleExportsQuery.execute` finally returns: the filtered
items after `format_results` (prebuilt truncation at 100). -/
def module_exports_returned (results : List ExportRow) (include_private : Bool) :
    List ExportItem :=
  (format_results (module_exports_filter results include_private)
    (prebuilt_truncate_limit : Nat) "Exports").results

/-! ## Expert-mode success formatting (`ExpertModeQuery.execute`, result dict) -/

structure ExpertFormatted (α : Type) where
  query : String
  rows : List α
  row_count : Nat
  truncated : Bool
  total_count : Nat
  limit_applied : Int
  /-- The `truncation_message` key, added only when truncation occurred. -/
  truncation_message : Option String := none
  deriving DecidableEq, Repr

/-- The result assembly of `ExpertModeQuery.execute` once the store has
returned `results`: truncation via `apply_truncation(results, limit,
"expert")` and the conditional `truncation_message`. -/
def expert_format_results {α : Type} (query : String) (results : List α)
    (limit : Int) : ExpertFormatted α :=
  let r := apply_truncation results limit .expert
  { query := query, rows := r.1, row_count := r.1.length, truncated := r.2.1,
    total_count := r.2.2, limit_applied := limit,
    truncation_message :=
      if r.2.1 then some (create_truncation_message r.1.length r.2.2 "expert query")
      else none }

/-- Concrete fixture: 101 rows of public (non-underscore) definitions, as a
`module_exports` traversal could return for a large module. -/
def exportRowFixture (i : Nat) : ExportRow :=
  { export_name := "m.f" ++ toString i, short_name := "f" ++ toString i,
    type_labels := ["Function"] }

def exportRowsFixture : List ExportRow :=
  (List.range 101).map exportRowFixture

/-!
# Theorems

Shared helper lemmas first, then one theorem per claim (with
counterexamples and witnesses where the claim's status requires them).
-/

/-! ## Helper lemmas on the string primitives -/

theorem listStartsWith_append (needle ys : List Char) :
    listStartsWith needle (needle ++ ys) = true := by
  induction needle with
  | nil => rfl
  | cons c cs ih => simp [listStartsWith, ih]

theorem listContainsSub_nil_right (xs : List Char) :
    listContainsSub xs [] = true := by
  cases xs <;> rfl

theorem listContainsSub_append_left (xs : List Char) {r needle : List Char}
    (h : listContainsSub r needle = true) :
    listContainsSub (xs ++ r) needle = true := by
  induction xs with
  | nil => simpa using h
  | cons c cs ih =>
    simp only [List.cons_append, listContainsSub, Bool.or_eq_true]
    exact Or.inr ih

theorem listContainsSub_self (needle ys : List Char) :
    listContainsSub (needle ++ ys) needle = true := by
  cases needle with
  | nil => exact listContainsSub_nil_right ys
  | cons c cs =>
    simp only [List.cons_append, listContainsSub, Bool.or_eq_true]
    exact Or.inl (by simpa using listStartsWith_append (c :: cs) ys)

theorem strContainsSub_append_right (s t needle : String)
    (h : strContainsSub t needle = true) :
    strContainsSub (s ++ t) needle = true := by
  unfold strContainsSub at h ⊢
  rw [String.data_append]
  exact listContainsSub_append_left s.data h

theorem strContainsSub_left (needle t : String) :
    strContainsSub (needle ++ t) needle = true := by
  unfold strContainsSub
  rw [String.data_append]
  exact listContainsSub_self needle.data t.data

/-- A nonempty needle is never contained in the empty haystack. -/
theorem not_listContainsSub_nil (c : Char) (cs : List Char) :
    listContainsSub [] (c :: cs) = false := rfl

theorem hay_ne_nil_of_contains {hay : List Char} {c : Char} {cs : List Char}
    (h : listContainsSub hay (c :: cs) = true) : hay ≠ [] := by
  intro he
  subst he
  simp [listContainsSub, listStartsWith] at h

/-- Uppercasing fixes whitespace characters. -/
theorem toUpper_of_whitespace {c : Char} (h : c.isWhitespace = true) :
    c.toUpper = c := by
  have : c = ' ' ∨ c = '\t' ∨ c = '\r' ∨ c = '\n' := by
    revert h
    unfold Char.isWhitespace
    intro h
    rcases Bool.or_eq_true_iff.mp h with h | h
    · rcases Bool.or_eq_true_iff.mp h with h | h
      · rcases Bool.or_eq_true_iff.mp h with h | h
        · exact Or.inl (by exact_mod_cast of_decide_eq_true h)
        · exact Or.inr (Or.inl (by exact_mod_cast of_decide_eq_true h))
      · exact Or.inr (Or.inr (Or.inl (by exact_mod_cast of_decide_eq_true h)))
    · exact Or.inr (Or.inr (Or.inr (by exact_mod_cast of_decide_eq_true h)))
  rcases this with h | h | h | h <;> subst h <;> decide

/-- Stripping to empty (`pyStrip s = ""`) means every character of `s` is whitespace. -/
theorem all_whitespace_of_pyStrip_nil {s : String}
    (h : (pyStrip s).data = []) : ∀ c ∈ s.data, c.isWhitespace = true := by
  unfold pyStrip at h
  simp only [List.reverse_eq_nil_iff] at h
  rcases List.dropWhile_eq_nil_iff.mp h with h2
  intro c hc
  by_cases hw : (s.data.dropWhile Char.isWhitespace) = []
  · exact List.dropWhile_eq_nil_iff.mp hw c hc
  · rcases (List.exists_cons_of_ne_nil hw) with ⟨a, as, ha⟩
    have hhead : ¬ (Char.isWhitespace a = true) := by
      have hpos : 0 < (s.data.dropWhile Char.isWhitespace).length := by
        rw [ha]; simp
      have := List.dropWhile_get_zero_not Char.isWhitespace s.data hpos
      simpa [ha] using this
    have : a ∈ (s.data.dropWhile Char.isWhitespace).reverse := by simp [ha]
    exact absurd (h2 a this) hhead

/-- If the query strips to empty, so does its uppercased form. -/
theorem pyStrip_pyUpper_nil {s : String}
    (h : (pyStrip s).data = []) : (pyStrip (pyUpper s)).data = [] := by
  have hws := all_whitespace_of_pyStrip_nil h
  have hmap : (pyUpper s).data = s.data := by
    unfold pyUpper
    simp only
    calc s.data.map Char.toUpper
        = s.data.map id := List.map_congr_left (fun c hc => toUpper_of_whitespace (hws c hc))
      _ = s.data := List.map_id s.data
  unfold pyStrip at h ⊢
  simp only [hmap]
  exact h

theorem pyStrip_ne_nil_of_upper {s : String}
    (h : (pyStrip (pyUpper s)).data ≠ []) : (pyStrip s).data ≠ [] := by
  intro he
  exact h (pyStrip_pyUpper_nil he)

/-! ## C3 — truncation honesty -/

/-- C3: for every result list and every positive truncation limit, both
`apply_truncation` and `format_cypher_results` return a prefix of the
input with `shown_count ≤ total_count`, `total_count` equal to the input
length, and `truncated = (shown_count < total_count)`. -/
theorem truncation_honest (α : Type) (results : List α) (limit : Int)
    (qt : QueryType) (columns : List String) (h : 0 < limit) :
    ((∃ n, (apply_truncation results limit qt).1 = results.take n) ∧
      (apply_truncation results limit qt).1.length ≤ (apply_truncation results limit qt).2.2 ∧
      (apply_truncation results limit qt).2.2 = results.length ∧
      ((apply_truncation results limit qt).2.1 = true ↔
        (apply_truncation results limit qt).1.length < (apply_truncation results limit qt).2.2)) ∧
    ((∃ n, (format_cypher_results results columns limit.toNat).rows = results.take n) ∧
      (format_cypher_results results columns limit.toNat).row_count ≤
        (format_cypher_results results columns limit.toNat).total_count ∧
      (format_cypher_results results columns limit.toNat).total_count = results.length ∧
      ((format_cypher_results results columns limit.toNat).truncated = true ↔
        (format_cypher_results results columns limit.toNat).row_count <
          (format_cypher_results results columns limit.toNat).total_count)) := by
  have heq : apply_truncation results limit qt =
      if results.length > limit.toNat
      then (results.take limit.toNat, true, results.length)
      else (results, false, results.length) := by
    unfold apply_truncation
    simp [h]
  have heq2 : format_cypher_results results columns limit.toNat =
      if results.length > limit.toNat
      then { rows := results.take limit.toNat, columns := columns,
             row_count := (results.take limit.toNat).length,
             total_count := results.length, truncated := true }
      else { rows := results, columns := columns, row_count := results.length,
             total_count := results.length, truncated := false } := by
    unfold format_cypher_results
    by_cases ht : results.length > limit.toNat <;> simp [ht]
  rw [heq, heq2]
  by_cases ht : results.length > limit.toNat
  · rw [if_pos ht, if_pos ht]
    refine ⟨⟨⟨limit.toNat, rfl⟩, ?_, rfl, ?_⟩, ⟨⟨limit.toNat, rfl⟩, ?_, rfl, ?_⟩⟩ <;>
      simp [List.length_take] <;> omega
  · rw [if_neg ht, if_neg ht]
    refine ⟨⟨⟨results.length, (List.take_of_length_le le_rfl).symm⟩, le_rfl, rfl, ?_⟩,
      ⟨⟨results.length, (List.take_of_length_le le_rfl).symm⟩, le_rfl, rfl, ?_⟩⟩ <;>
      simp

/-- Witness for C3 at a concrete input. -/
theorem truncation_honest_witness :
    (0 : Int) < 2 ∧
    ((∃ n, (apply_truncation [10, 20, 30] 2 .prebuilt).1 = List.take n [10, 20, 30]) ∧
      (apply_truncation [10, 20, 30] 2 .prebuilt).1.length ≤ (apply_truncation [10, 20, 30] 2 .prebuilt).2.2 ∧
      (apply_truncation [10, 20, 30] 2 .prebuilt).2.2 = [10, 20, 30].length ∧
      ((apply_truncation [10, 20, 30] 2 .prebuilt).2.1 = true ↔
        (apply_truncation [10, 20, 30] 2 .prebuilt).1.length < (apply_truncation [10, 20, 30] 2 .prebuilt).2.2)) ∧
    ((∃ n, (format_cypher_results [10, 20, 30] ["c"] (Int.toNat 2)).rows = List.take n [10, 20, 30]) ∧
      (format_cypher_results [10, 20, 30] ["c"] (Int.toNat 2)).row_count ≤
        (format_cypher_results [10, 20, 30] ["c"] (Int.toNat 2)).total_count ∧
      (format_cypher_results [10, 20, 30] ["c"] (Int.toNat 2)).total_count = [10, 20, 30].length ∧
      ((format_cypher_results [10, 20, 30] ["c"] (Int.toNat 2)).truncated = true ↔
        (format_cypher_results [10, 20, 30] ["c"] (Int.toNat 2)).row_count <
          (format_cypher_results [10, 20, 30] ["c"] (Int.toNat 2)).total_count)) :=
  ⟨by decide, truncation_honest Nat [10, 20, 30] 2 .prebuilt ["c"] (by decide)⟩

/-! ## C2 — envelope XOR invariant -/

/-- C2: an envelope construction succeeds exactly when the XOR invariant
holds — `success=true` requires `data` present and `error`/`code` absent,
`success=false` requires `error` and `code` present and `data` absent —
and the constructed envelope is the record that was validated. -/
theorem envelope_xor (T : Type) (s : Bool) (d : Option T) (e : Option String)
    (c : Option ErrorCode) (rid : String) (env : ResponseEnvelope T) :
    mkResponseEnvelope s d e c rid = .ok env ↔
      (env = { success := s, data := d, error := e, code := c, request_id := rid } ∧
        (if s then d.isSome ∧ e = none ∧ c = none
         else e.isSome ∧ c.isSome ∧ d = none)) := by
  unfold mkResponseEnvelope validate_xor
  cases s <;> cases d <;> cases e <;> cases c <;>
    simp_all [Option.isSome, Option.isNone] <;>
    exact eq_comm

/-! ## C5 — the error-code value set -/

/-- C5 counterexample: `NODE_NOT_FOUND`, `QUERY_TIMEOUT` and
`FORBIDDEN_OPERATION` are not constructible values of the envelope's
`code` field — the `ErrorCode` enum has no member with those values. -/
theorem errorcode_three_missing :
    (¬ ∃ c : ErrorCode, c.val = "NODE_NOT_FOUND") ∧
    (¬ ∃ c : ErrorCode, c.val = "QUERY_TIMEOUT") ∧
    (¬ ∃ c : ErrorCode, c.val = "FORBIDDEN_OPERATION") := by
  refine ⟨fun ⟨c, hc⟩ => ?_, fun ⟨c, hc⟩ => ?_, fun ⟨c, hc⟩ => ?_⟩ <;>
    cases c <;> exact absurd hc (by decide)

/-- C5, amended: the `code` field of a response envelope ranges over
exactly the seven values of the `ErrorCode` enum; each of the seven is
constructible and no other member exists. -/
theorem errorcode_exactly_seven :
    (∀ c : ErrorCode, c.val ∈
      ["TOOL_NOT_FOUND", "INVALID_ARGUMENTS", "EXECUTION_ERROR", "INTERNAL_ERROR",
        "TIMEOUT", "RATE_LIMITED", "SERVICE_UNAVAILABLE"]) ∧
    (∃ c : ErrorCode, c.val = "TOOL_NOT_FOUND") ∧
    (∃ c : ErrorCode, c.val = "INVALID_ARGUMENTS") ∧
    (∃ c : ErrorCode, c.val = "EXECUTION_ERROR") ∧
    (∃ c : ErrorCode, c.val = "INTERNAL_ERROR") ∧
    (∃ c : ErrorCode, c.val = "TIMEOUT") ∧
    (∃ c : ErrorCode, c.val = "RATE_LIMITED") ∧
    (∃ c : ErrorCode, c.val = "SERVICE_UNAVAILABLE") ∧
    (∀ c : ErrorCode, c ∈ ErrorCode.all) ∧
    ErrorCode.all.length = 7 := by
  refine ⟨fun c => by cases c <;> simp [ErrorCode.val],
    ⟨.TOOL_NOT_FOUND, rfl⟩, ⟨.INVALID_ARGUMENTS, rfl⟩, ⟨.EXECUTION_ERROR, rfl⟩,
    ⟨.INTERNAL_ERROR, rfl⟩, ⟨.TIMEOUT, rfl⟩, ⟨.RATE_LIMITED, rfl⟩,
    ⟨.SERVICE_UNAVAILABLE, rfl⟩, fun c => by cases c <;> simp [ErrorCode.all], rfl⟩

/-! ## Lemmas about the ad-hoc query validator -/

/-- Every rejection of `_validate_cypher_query` carries
`FORBIDDEN_OPERATION`. -/
theorem validate_some_forbidden {q : String} {r : ErrorResponse}
    (h : validate_cypher_query q = some r) :
    r.error_code = "FORBIDDEN_OPERATION" := by
  simp only [validate_cypher_query] at h
  split at h
  · simp only [Option.some.injEq] at h
    subst h; rfl
  · split at h
    · simp only [Option.some.injEq] at h
      subst h; rfl
    · split at h
      · simp only [Option.some.injEq] at h
        subst h; rfl
      · split at h
        · simp only [Option.some.injEq] at h
          subst h; rfl
        · cases h

/-- When `_validate_cypher_query` accepts, the uppercased stripped query
contains none of CREATE, MERGE, DELETE, DROP as a substring, nor a
space-delimited SET. -/
theorem validate_none_no_keywords {q : String}
    (h : validate_cypher_query q = none) :
    strContainsSub (pyStrip (pyUpper q)) "CREATE" = false ∧
    strContainsSub (pyStrip (pyUpper q)) "MERGE" = false ∧
    strContainsSub (pyStrip (pyUpper q)) "DELETE" = false ∧
    strContainsSub (pyStrip (pyUpper q)) "DROP" = false ∧
    strContainsSub (pyStrip (pyUpper q)) " SET " = false := by
  simp only [validate_cypher_query] at h
  split at h
  · cases h
  · rename_i hc1
    split at h
    · cases h
    · rename_i hfind
      have hdest := List.find?_eq_none.mp hfind
      have hDELETE : strContainsSub (pyStrip (pyUpper q)) "DELETE" = false := by
        have := hdest "DELETE" (by decide)
        simpa using this
      have hDROP : strContainsSub (pyStrip (pyUpper q)) "DROP" = false := by
        have := hdest "DROP" (by decide)
        simpa using this
      have hCI : strContainsSub (pyStrip (pyUpper q)) "CREATE INDEX" = false := by
        have := hdest "CREATE INDEX" (by decide)
        simpa using this
      have hCC : strContainsSub (pyStrip (pyUpper q)) "CREATE CONSTRAINT" = false := by
        have := hdest "CREATE CONSTRAINT" (by decide)
        simpa using this
      have hCREATE : strContainsSub (pyStrip (pyUpper q)) "CREATE" = false := by
        by_contra hcr
        rw [Bool.not_eq_false] at hcr
        apply hc1
        simp [hcr, hCI, hCC]
      split at h
      · cases h
      · rename_i hSET
        split at h
        · cases h
        · rename_i hMERGE
          refine ⟨hCREATE, by simpa using hMERGE, hDELETE, hDROP, by simpa using hSET⟩

/-! ## C1 — ad-hoc guard -/

/-- C1 counterexample: `REMOVE` occurs as a case-insensitive whole word
(it is one of the claimed mutation keywords), yet `ExpertModeQuery.execute`
does not return `FORBIDDEN_OPERATION` — it hands the statement to the
store.  Likewise a query that begins with `SET` (whole word, but not
surrounded by spaces) reaches the store. -/
theorem adhoc_guard_counterexample :
    containsWholeWordCI "MATCH (n) REMOVE n.prop" "REMOVE" = true ∧
    "REMOVE" ∈ mutation_keywords ∧
    expert_execute "MATCH (n) REMOVE n.prop" none 50 =
      .executesQuery "MATCH (n) REMOVE n.prop" [] ∧
    containsWholeWordCI "SET n.x = 1" "SET" = true ∧
    "SET" ∈ mutation_keywords ∧
    expert_execute "SET n.x = 1" none 50 = .executesQuery "SET n.x = 1" [] :=
  ⟨by decide, by decide, rfl, by decide, by decide, rfl⟩

/-- C1, amended: with an in-range limit, every query whose uppercased
stripped text contains `CREATE`, `MERGE`, `DELETE` or `DROP` as a
substring, or `SET` surrounded by spaces, is answered with a
`FORBIDDEN_OPERATION` error response and no statement reaches the store;
`REMOVE` and a `SET` not surrounded by spaces are not checked. -/
theorem adhoc_guard (q : String) (p : Option (List (String × JsonVal)))
    (limit : Int) (hl : 1 ≤ limit) (hr : limit ≤ 1000)
    (hk : strContainsSub (pyStrip (pyUpper q)) "CREATE" = true ∨
      strContainsSub (pyStrip (pyUpper q)) "MERGE" = true ∨
      strContainsSub (pyStrip (pyUpper q)) "DELETE" = true ∨
      strContainsSub (pyStrip (pyUpper q)) "DROP" = true ∨
      strContainsSub (pyStrip (pyUpper q)) " SET " = true) :
    ∃ r, expert_execute q p limit = .errorResponse r ∧
      r.error_code = "FORBIDDEN_OPERATION" := by
  obtain ⟨r, hv⟩ : ∃ r, validate_cypher_query q = some r := by
    cases hv : validate_cypher_query q with
    | some r => exact ⟨r, rfl⟩
    | none =>
      exfalso
      obtain ⟨h1, h2, h3, h4, h5⟩ := validate_none_no_keywords hv
      rcases hk with h | h | h | h | h <;> simp_all
  have hne : (pyStrip (pyUpper q)).data ≠ [] := by
    rcases hk with h | h | h | h | h <;> exact hay_ne_nil_of_contains h
  refine ⟨r, ?_, validate_some_forbidden hv⟩
  simp only [expert_execute]
  split
  · rename_i hcond
    exfalso
    simp only [Bool.or_eq_true, decide_eq_true_eq] at hcond
    omega
  · split
    · rename_i hemp
      exfalso
      rw [List.isEmpty_iff] at hemp
      exact pyStrip_ne_nil_of_upper hne hemp
    · rw [hv]

/-- Witness for C1's amended theorem at a concrete forbidden query. -/
theorem adhoc_guard_witness :
    ((1 : Int) ≤ 50 ∧ (50 : Int) ≤ 1000 ∧
      strContainsSub (pyStrip (pyUpper "MATCH (n) DELETE n")) "DELETE" = true) ∧
    (∃ r, expert_execute "MATCH (n) DELETE n" none 50 = .errorResponse r ∧
      r.error_code = "FORBIDDEN_OPERATION") :=
  ⟨⟨by decide, by decide, by decide⟩,
    adhoc_guard "MATCH (n) DELETE n" none 50 (by decide) (by decide)
      (Or.inr (Or.inr (Or.inl (by decide))))⟩

/-! ## C4 — parameter validation error codes -/

/-- C4 counterexample: out-of-range numeric parameters yield error code
`INVALID_PARAMETER`, not `INVALID_ARGUMENTS`, and an empty qualified name
is not rejected at validation — it is passed to the store. -/
theorem invalid_parameter_counterexample :
    (find_callers_execute "proj.mod.fn" 0).errCode = some "INVALID_PARAMETER" ∧
    (call_graph_validate "proj.mod.fn" 0 50).errCode = some "INVALID_PARAMETER" ∧
    (class_hierarchy_validate "proj.mod.Cls" "both" 0).errCode = some "INVALID_PARAMETER" ∧
    (expert_execute "MATCH (n) RETURN n" none 0) =
      .errorResponse (create_error_response "INVALID_PARAMETER"
        "limit must be between 1 and 1000"
        (some "Use smaller limit values to avoid overwhelming results. Default is 50.")) ∧
    "INVALID_PARAMETER" ≠ "INVALID_ARGUMENTS" ∧
    find_callers_execute "" 1 = .queriesStore "" :=
  ⟨rfl, rfl, rfl, rfl, by decide, rfl⟩

/-- C4, amended: a numeric parameter outside its declared range makes the
tool return an error response whose code is `INVALID_PARAMETER` (not
`INVALID_ARGUMENTS`) without querying the store; an empty qualified name
is not validated and reaches the store. -/
theorem out_of_range_invalid_parameter (fn entry cls dir q : String)
    (p : Option (List (String × JsonVal))) (d1 d2 n2 d3 lim : Int) :
    ((d1 < 1 ∨ d1 > 5) →
      ∃ r, find_callers_execute fn d1 = .errorResponse r ∧
        r.error_code = "INVALID_PARAMETER") ∧
    ((d2 < 1 ∨ d2 > 5) ∨ (n2 < 1 ∨ n2 > 100) →
      ∃ r, call_graph_validate entry d2 n2 = .errorResponse r ∧
        r.error_code = "INVALID_PARAMETER") ∧
    ((d3 < 1 ∨ d3 > 10) →
      ∃ r, class_hierarchy_validate cls dir d3 = .errorResponse r ∧
        r.error_code = "INVALID_PARAMETER") ∧
    ((lim < 1 ∨ lim > 1000) →
      ∃ r, expert_execute q p lim = .errorResponse r ∧
        r.error_code = "INVALID_PARAMETER") ∧
    (1 ≤ d1 → d1 ≤ 5 → find_callers_execute "" d1 = .queriesStore "") ∧
    (1 ≤ d2 → d2 ≤ 5 → 1 ≤ n2 → n2 ≤ 100 →
      call_graph_validate "" d2 n2 = .queriesStore "") ∧
    (1 ≤ d3 → d3 ≤ 10 → class_hierarchy_validate "" "both" d3 = .queriesStore "") := by
  refine ⟨?_, ?_, ?_, ?_, ?_, ?_, ?_⟩
  · intro h
    simp only [find_callers_execute]
    split
    · exact ⟨_, rfl, rfl⟩
    · rename_i hc
      exfalso
      simp only [Bool.or_eq_true, decide_eq_true_eq] at hc
      omega
  · intro h
    simp only [call_graph_validate]
    split
    · exact ⟨_, rfl, rfl⟩
    · split
      · exact ⟨_, rfl, rfl⟩
      · rename_i h1 h2
        exfalso
        simp only [Bool.or_eq_true, decide_eq_true_eq] at h1 h2
        omega
  · intro h
    simp only [class_hierarchy_validate]
    split
    · exact ⟨_, rfl, rfl⟩
    · split
      · exact ⟨_, rfl, rfl⟩
      · rename_i h1 h2
        exfalso
        simp only [Bool.or_eq_true, decide_eq_true_eq] at h2
        omega
  · intro h
    simp only [expert_execute]
    split
    · exact ⟨_, rfl, rfl⟩
    · rename_i hc
      exfalso
      simp only [Bool.or_eq_true, decide_eq_true_eq] at hc
      omega
  · intro h1 h2
    simp only [find_callers_execute]
    split
    · rename_i hc
      exfalso
      simp only [Bool.or_eq_true, decide_eq_true_eq] at hc
      omega
    · rfl
  · intro h1 h2 h3 h4
    simp only [call_graph_validate]
    split
    · rename_i hc
      exfalso
      simp only [Bool.or_eq_true, decide_eq_true_eq] at hc
      omega
    · split
      · rename_i hc
        exfalso
        simp only [Bool.or_eq_true, decide_eq_true_eq] at hc
        omega
      · rfl
  · intro h1 h2
    simp only [class_hierarchy_validate]
    split
    · rename_i hc
      simp at hc
    · split
      · rename_i hc
        exfalso
        simp only [Bool.or_eq_true, decide_eq_true_eq] at hc
        omega
      · rfl

/-- Witness for C4's amended theorem at concrete inputs. -/
theorem out_of_range_invalid_parameter_witness :
    (((0 : Int) < 1 ∨ (0 : Int) > 5) ∧ (1 ≤ (1 : Int)) ∧ ((1 : Int) ≤ 5)) ∧
    (∃ r, find_callers_execute "proj.mod.fn" 0 = .errorResponse r ∧
      r.error_code = "INVALID_PARAMETER") ∧
    find_callers_execute "" 1 = .queriesStore "" := by
  have h := out_of_range_invalid_parameter "proj.mod.fn" "e" "c" "both" "q" none 0 2 2 2 2
  have h2 := out_of_range_invalid_parameter "proj.mod.fn" "e" "c" "both" "q" none 1 2 2 2 2
  exact ⟨⟨by decide, by decide, by decide⟩, h.1 (by decide),
    h2.2.2.2.2.1 (by decide) (by decide)⟩

/-! ## C9 — ad-hoc validation of query and parameters -/

/-- C9 counterexample: a parameters map containing a non-primitive JSON
value (an array) is not rejected — the query is executed against the
store with those parameters. -/
theorem params_unvalidated_counterexample :
    expert_execute "MATCH (n) RETURN n LIMIT 5"
        (some [("x", JsonVal.arr [JsonVal.num 1])]) 50 =
      .executesQuery "MATCH (n) RETURN n LIMIT 5" [("x", JsonVal.arr [JsonVal.num 1])] ∧
    (JsonVal.arr [JsonVal.num 1]).isPrimitive = false :=
  ⟨rfl, rfl⟩

/-- C9, amended: with an in-range limit, an empty or whitespace-only query
is rejected at validation (code `INVALID_QUERY`) before any store access;
the parameters map is not validated at all — any map, including one with
nested objects or arrays, is passed through to the store once the query
text is accepted. -/
theorem expert_prevalidation (q : String) (p : Option (List (String × JsonVal)))
    (ps : List (String × JsonVal)) (lim : Int)
    (hl : 1 ≤ lim) (hr : lim ≤ 1000) :
    ((pyStrip q).data = [] →
      ∃ r, expert_execute q p lim = .errorResponse r ∧
        r.error_code = "INVALID_QUERY") ∧
    (validate_cypher_query q = none → (pyStrip q).data ≠ [] →
      expert_execute q (some ps) lim = .executesQuery q ps) := by
  constructor
  · intro hemp
    simp only [expert_execute]
    split
    · rename_i hc
      exfalso
      simp only [Bool.or_eq_true, decide_eq_true_eq] at hc
      omega
    · split
      · exact ⟨_, rfl, rfl⟩
      · rename_i hc
        exfalso
        rw [List.isEmpty_iff] at hc
        exact hc hemp
  · intro hv hne
    simp only [expert_execute]
    split
    · rename_i hc
      exfalso
      simp only [Bool.or_eq_true, decide_eq_true_eq] at hc
      omega
    · split
      · rename_i hc
        rw [List.isEmpty_iff] at hc
        exact absurd hc hne
      · rw [hv]
        rfl

/-- Witness for C9's amended theorem at concrete inputs. -/
theorem expert_prevalidation_witness :
    ((1 : Int) ≤ 50 ∧ (50 : Int) ≤ 1000 ∧ (pyStrip "   ").data = [] ∧
      validate_cypher_query "MATCH (n) RETURN n" = none ∧
      (pyStrip "MATCH (n) RETURN n").data ≠ []) ∧
    (∃ r, expert_execute "   " none 50 = .errorResponse r ∧
      r.error_code = "INVALID_QUERY") ∧
    expert_execute "MATCH (n) RETURN n" (some [("x", JsonVal.null)]) 50 =
      .executesQuery "MATCH (n) RETURN n" [("x", JsonVal.null)] := by
  refine ⟨⟨by decide, by decide, by decide, by rfl, by decide⟩, ?_, ?_⟩
  · exact (expert_prevalidation "   " none [] 50 (by decide) (by decide)).1 (by decide)
  · exact (expert_prevalidation "MATCH (n) RETURN n" none [("x", JsonVal.null)] 50
      (by decide) (by decide)).2 (by rfl) (by decide)

/-! ## C7 — truncation defaults and the refine hint -/

/-- When results were omitted, the truncation message asks the caller to
refine the query. -/
theorem truncation_message_refine (shown total : Nat) (qt : String)
    (h : shown < total) :
    strContainsSub (create_truncation_message shown total qt)
      ("Refine your " ++ qt) = true := by
  unfold create_truncation_message
  rw [if_neg (by omega)]
  unfold strContainsSub
  simp only [String.data_append, List.append_assoc]
  apply listContainsSub_append_left
  apply listContainsSub_append_left
  apply listContainsSub_append_left
  apply listContainsSub_append_left
  apply listContainsSub_append_left
  apply listContainsSub_append_left
  apply listContainsSub_append_left
  rw [← List.append_assoc]
  exact listContainsSub_self _ _

set_option maxRecDepth 4000 in
/-- C7 counterexample: a prebuilt tool's formatted result carries the
truncation flag and counts but no refine hint — `format_results` adds no
truncation-message key even when rows were dropped. -/
theorem prebuilt_no_hint_counterexample :
    (format_results (List.range 120) 100 "q").truncated = true ∧
    (format_results (List.range 120) 100 "q").truncation_message = none ∧
    (format_results (List.range 120) 100 "q").row_count = 100 ∧
    (format_results (List.range 120) 100 "q").total_count = 120 := by
  refine ⟨by decide, rfl, by decide, by decide⟩

/-- C7, amended: the default limits are 100 (prebuilt) and 50 (expert);
when the expert tool truncates, its result carries `truncated=true`, the
total count, the shown count and a hint asking to refine the query; the
prebuilt `format_results` carries the flag and counts but never a hint. -/
theorem truncation_defaults_and_hint (α : Type) (results : List α)
    (q desc : String) (limit : Int) :
    default_limits .prebuilt = 100 ∧ default_limits .expert = 50 ∧
    prebuilt_truncate_limit = 100 ∧ expert_truncate_limit = 50 ∧
    ((expert_format_results q results limit).truncated = true →
      (expert_format_results q results limit).total_count = results.length ∧
      (expert_format_results q results limit).row_count <
        (expert_format_results q results limit).total_count ∧
      (expert_format_results q results limit).truncation_message =
        some (create_truncation_message
          (expert_format_results q results limit).row_count
          (expert_format_results q results limit).total_count "expert query") ∧
      strContainsSub
        (create_truncation_message
          (expert_format_results q results limit).row_count
          (expert_format_results q results limit).total_count "expert query")
        ("Refine your " ++ "expert query") = true) ∧
    (format_results results limit desc).truncation_message = none := by
  refine ⟨rfl, rfl, rfl, rfl, ?_, rfl⟩
  by_cases hc : results.length >
      (if limit > 0 then limit.toNat else default_limits .expert)
  · have he : expert_format_results q results limit =
        { query := q,
          rows := results.take (if limit > 0 then limit.toNat else default_limits .expert),
          row_count := (results.take
            (if limit > 0 then limit.toNat else default_limits .expert)).length,
          truncated := true, total_count := results.length, limit_applied := limit,
          truncation_message := some (create_truncation_message
            (results.take
              (if limit > 0 then limit.toNat else default_limits .expert)).length
            results.length "expert query") } := by
      unfold expert_format_results apply_truncation
      simp [hc]
    intro _
    rw [he]
    have hlt : (results.take
        (if limit > 0 then limit.toNat else default_limits .expert)).length <
        results.length := by
      simp only [List.length_take]
      omega
    exact ⟨rfl, hlt, rfl, truncation_message_refine _ _ _ hlt⟩
  · have he : (expert_format_results q results limit).truncated = false := by
      unfold expert_format_results apply_truncation
      simp [hc]
    intro ht
    rw [he] at ht
    cases ht

/-- Witness for C7's amended theorem at a concrete truncated expert result. -/
theorem truncation_defaults_and_hint_witness :
    (expert_format_results "q" (List.range 60) 50).truncated = true ∧
    (expert_format_results "q" (List.range 60) 50).total_count = (List.range 60).length ∧
    (expert_format_results "q" (List.range 60) 50).row_count <
      (expert_format_results "q" (List.range 60) 50).total_count ∧
    (expert_format_results "q" (List.range 60) 50).truncation_message =
      some (create_truncation_message
        (expert_format_results "q" (List.range 60) 50).row_count
        (expert_format_results "q" (List.range 60) 50).total_count "expert query") ∧
    strContainsSub
      (create_truncation_message
        (expert_format_results "q" (List.range 60) 50).row_count
        (expert_format_results "q" (List.range 60) 50).total_count "expert query")
      ("Refine your " ++ "expert query") = true := by
  have h := (truncation_defaults_and_hint Nat (List.range 60) "q" "d" 50).2.2.2.2.1
    (by decide)
  exact ⟨by decide, h.1, h.2.1, h.2.2.1, h.2.2.2⟩

/-! ## C8 — module exports private-name filter -/

/-- Applying `apply_truncation` at the prebuilt default limit takes the first 100
entries (everything when at most 100). -/
theorem apply_truncation_prebuilt_take (l : List ExportItem) :
    (apply_truncation l ((prebuilt_truncate_limit : Nat) : Int) .prebuilt).1 =
      l.take 100 := by
  unfold apply_truncation
  have he : (if ((prebuilt_truncate_limit : Nat) : Int) > 0
      then ((prebuilt_truncate_limit : Nat) : Int).toNat
      else default_limits .prebuilt) = 100 := by decide
  rw [he]
  by_cases hc : l.length > 100
  · simp [hc]
  · simp [hc]
    omega

set_option maxRecDepth 8000 in
/-- C8 counterexample: with 101 public rows the 101st passes the
private-name filter yet is absent from the returned results — the
prebuilt truncation to 100 rows drops it. -/
theorem module_exports_truncated_counterexample :
    exportRowFixture 100 ∈ exportRowsFixture ∧
    pyStartsWith (exportRowFixture 100).short_name "_" = false ∧
    rowToItem (exportRowFixture 100) ∉ module_exports_returned exportRowsFixture false := by
  refine ⟨by decide, by decide, by decide⟩

/-- C8, amended: a row survives the private-name filter iff
`include_private` is true or its short name does not start with `_`; the
returned results are the first 100 surviving rows, so with more than 100
survivors later ones are dropped; with `include_private=false` no
returned entry's name begins with `_`. -/
theorem module_exports_filter_spec (results : List ExportRow) (ip : Bool)
    (row : ExportRow) (item : ExportItem) (hrow : row ∈ results) :
    (rowToItem row ∈ module_exports_filter results ip ↔
      (ip = true ∨ pyStartsWith row.short_name "_" = false)) ∧
    module_exports_returned results ip = (module_exports_filter results ip).take 100 ∧
    (item ∈ module_exports_returned results false →
      pyStartsWith item.name "_" = false) := by
  have hret : ∀ b, module_exports_returned results b =
      (module_exports_filter results b).take 100 := by
    intro b
    unfold module_exports_returned format_results
    exact apply_truncation_prebuilt_take _
  refine ⟨?_, hret ip, ?_⟩
  · constructor
    · intro hmem
      by_contra hrhs
      push_neg at hrhs
      obtain ⟨hip, hus⟩ := hrhs
      have hip' : ip = false := by
        cases ip
        · rfl
        · exact absurd rfl hip
      have hus' : pyStartsWith row.short_name "_" = true := by
        cases hs : pyStartsWith row.short_name "_"
        · exact absurd hs hus
        · rfl
      obtain ⟨row', hrow', heq⟩ := List.mem_map.mp hmem
      obtain ⟨_, hpred⟩ := List.mem_filter.mp hrow'
      have hname : row'.short_name = row.short_name := by
        have := congrArg ExportItem.name heq
        simpa [rowToItem] using this
      rw [hip'] at hpred
      simp only [Bool.false_or, Bool.not_eq_true'] at hpred
      rw [hname, hus'] at hpred
      cases hpred
    · intro h
      apply List.mem_map_of_mem rowToItem
      apply List.mem_filter.mpr
      refine ⟨hrow, ?_⟩
      rcases h with h | h
      · simp [h]
      · simp [h]
  · intro hmem
    rw [hret false] at hmem
    have hmem' := List.take_subset 100 _ hmem
    obtain ⟨row', hrow', heq⟩ := List.mem_map.mp hmem'
    obtain ⟨_, hpred⟩ := List.mem_filter.mp hrow'
    simp only [Bool.false_or, Bool.not_eq_true'] at hpred
    have : item.name = row'.short_name := by
      rw [← heq]
      simp [rowToItem]
    rw [this, hpred]

/-- Witness for C8's amended theorem at a concrete input. -/
theorem module_exports_filter_spec_witness :
    (exportRowFixture 0 ∈ [exportRowFixture 0]) ∧
    (rowToItem (exportRowFixture 0) ∈ module_exports_filter [exportRowFixture 0] false ↔
      (false = true ∨ pyStartsWith (exportRowFixture 0).short_name "_" = false)) ∧
    module_exports_returned [exportRowFixture 0] false =
      (module_exports_filter [exportRowFixture 0] false).take 100 := by
  have h := module_exports_filter_spec [exportRowFixture 0] false (exportRowFixture 0)
    (rowToItem (exportRowFixture 0)) (by decide)
  exact ⟨by decide, h.1, h.2.1⟩

/-! ## C10 — call graph: truncation bound and no dangling edges -/

/-- The assembled call graph never exceeds the node budget and keeps only
edges between surviving nodes. -/
theorem call_graph_assemble_closed (results : List CallRow) (entry : String)
    (mnn : Nat) :
    (call_graph_assemble results entry mnn).nodes.length ≤ mnn ∧
    ∀ e ∈ (call_graph_assemble results entry mnn).edges,
      e.src ∈ (call_graph_assemble results entry mnn).nodes.map GraphNode.id ∧
      e.dst ∈ (call_graph_assemble results entry mnn).nodes.map GraphNode.id := by
  simp only [call_graph_assemble]
  constructor
  · unfold truncate_nodes
    by_cases hc : (extract_nodes_and_edges results entry).1.length > mnn
    · simp [hc, List.length_take]
    · simp [hc]
      omega
  · intro e he
    obtain ⟨_, hb⟩ := List.mem_filter.mp he
    simp only [Bool.and_eq_true] at hb
    exact ⟨List.elem_iff.mp hb.1, List.elem_iff.mp hb.2⟩

/-- C10: whenever `CallGraphGeneratorQuery.execute` returns a graph, the
node list respects `max_nodes` and every returned edge has both of its
endpoints among the returned node ids. -/
theorem call_graph_closed (results : List CallRow) (ee : Bool) (entry : String)
    (md mn : Int) (g : CallGraphResult)
    (h : call_graph_execute results ee entry md mn = .graph g) :
    g.nodes.length ≤ mn.toNat ∧
    ∀ e ∈ g.edges, e.src ∈ g.nodes.map GraphNode.id ∧
      e.dst ∈ g.nodes.map GraphNode.id := by
  simp only [call_graph_execute] at h
  split at h
  · cases h
  · split at h
    · cases h
    · rename_i hdep hnod
      simp only [Bool.or_eq_true, decide_eq_true_eq, not_or] at hnod
      split at h
      · split at h
        · rename_i hee
          have hg : g = create_empty_graph_result entry := by
            injection h with h
            exact h.symm
          subst hg
          refine ⟨?_, by intro e he; cases he⟩
          simp only [create_empty_graph_result, List.length_cons, List.length_nil]
          omega
        · cases h
      · rename_i a l
        have hg : g = call_graph_assemble (a :: l) entry mn.toNat := by
          injection h with h
          exact h.symm
        subst hg
        exact call_graph_assemble_closed (a :: l) entry mn.toNat

/-- Witness for C10 at a concrete one-edge traversal. -/
theorem call_graph_closed_witness :
    call_graph_execute
        [{ entry_name := "e", called_name := "f", short_name := "f",
           node_type := ["Function"] }] true "e" 3 50 =
      .graph { nodes := [{ id := "e", name := "e", type := "Function" },
                         { id := "f", name := "f", type := "Function" }],
               edges := [{ src := "e", dst := "f", call_type := "direct" }],
               truncated := false, total_nodes := 2 } ∧
    ({ nodes := [{ id := "e", name := "e", type := "Function" },
                 { id := "f", name := "f", type := "Function" }],
       edges := [{ src := "e", dst := "f", call_type := "direct" }],
       truncated := false, total_nodes := 2 } : CallGraphResult).nodes.length ≤
        (50 : Int).toNat ∧
    ∀ e ∈ ({ nodes := [{ id := "e", name := "e", type := "Function" },
                       { id := "f", name := "f", type := "Function" }],
             edges := [{ src := "e", dst := "f", call_type := "direct" }],
             truncated := false, total_nodes := 2 } : CallGraphResult).edges,
      e.src ∈ ({ nodes := [{ id := "e", name := "e", type := "Function" },
                           { id := "f", name := "f", type := "Function" }],
                 edges := [{ src := "e", dst := "f", call_type := "direct" }],
                 truncated := false, total_nodes := 2 } : CallGraphResult).nodes.map GraphNode.id ∧
      e.dst ∈ ({ nodes := [{ id := "e", name := "e", type := "Function" },
                           { id := "f", name := "f", type := "Function" }],
                 edges := [{ src := "e", dst := "f", call_type := "direct" }],
                 truncated := false, total_nodes := 2 } : CallGraphResult).nodes.map GraphNode.id := by
  have h := call_graph_closed
    [{ entry_name := "e", called_name := "f", short_name := "f",
       node_type := ["Function"] }] true "e" 3 50
    { nodes := [{ id := "e", name := "e", type := "Function" },
                { id := "f", name := "f", type := "Function" }],
      edges := [{ src := "e", dst := "f", call_type := "direct" }],
      truncated := false, total_nodes := 2 } rfl
  exact ⟨rfl, h.1, h.2⟩

/-! ## C6 — deduplication of implementation rows -/

theorem name_mem_dedupInsert (m : List ImplRow) (r : ImplRow) (s : String) :
    s ∈ (dedupInsert m r).map ImplRow.class_name ↔
      s ∈ m.map ImplRow.class_name ∨ s = r.class_name := by
  induction m with
  | nil => simp [dedupInsert, eq_comm]
  | cons x xs ih =>
    by_cases hname : x.class_name = r.class_name
    · simp only [dedupInsert, if_pos hname]
      have hhead : (if r.depth < x.depth then r else x).class_name = x.class_name := by
        split
        · exact hname.symm
        · rfl
      simp only [List.map_cons, List.mem_cons, hhead]
      constructor
      · rintro (h | h)
        · exact Or.inl (Or.inl h)
        · exact Or.inl (Or.inr h)
      · rintro ((h | h) | h)
        · exact Or.inl h
        · exact Or.inr h
        · exact Or.inl (h.trans hname.symm)
    · simp only [dedupInsert, if_neg hname, List.map_cons, List.mem_cons, ih]
      tauto

theorem nodup_dedupInsert {m : List ImplRow} (r : ImplRow)
    (h : (m.map ImplRow.class_name).Nodup) :
    ((dedupInsert m r).map ImplRow.class_name).Nodup := by
  induction m with
  | nil => simp [dedupInsert]
  | cons x xs ih =>
    simp only [List.map_cons, List.nodup_cons] at h
    by_cases hname : x.class_name = r.class_name
    · simp only [dedupInsert, if_pos hname]
      have hhead : (if r.depth < x.depth then r else x).class_name = x.class_name := by
        split
        · exact hname.symm
        · rfl
      simp only [List.map_cons, List.nodup_cons, hhead]
      exact ⟨h.1, h.2⟩
    · simp only [dedupInsert, if_neg hname, List.map_cons, List.nodup_cons]
      refine ⟨?_, ih h.2⟩
      rw [name_mem_dedupInsert]
      rintro (hc | hc)
      · exact h.1 hc
      · exact hname hc

theorem minAcc_dedupInsert {seen acc : List ImplRow} {r : ImplRow}
    (hnodup : (acc.map ImplRow.class_name).Nodup)
    (hmin : MinAcc seen acc)
    (hcov : r.class_name ∈ acc.map ImplRow.class_name ∨
      ∀ z ∈ seen, z.class_name ≠ r.class_name) :
    MinAcc (seen ++ [r]) (dedupInsert acc r) := by
  induction acc generalizing seen with
  | nil =>
    have hno : ∀ z ∈ seen, z.class_name ≠ r.class_name := by
      rcases hcov with h | h
      · simp at h
      · exact h
    intro y hy
    simp only [dedupInsert, List.mem_singleton] at hy
    refine ⟨?_, ?_⟩
    · rw [hy]
      exact List.mem_append_right _ (List.mem_singleton_self _)
    · intro x hx hxname
      rw [hy] at hxname
      rcases List.mem_append.mp hx with hx | hx
      · exact absurd hxname (hno x hx)
      · rw [List.mem_singleton.mp hx, hy]
  | cons x xs ih =>
    have hminx := hmin x (List.mem_cons_self x xs)
    have hminxs : MinAcc seen xs := fun y hy => hmin y (List.mem_cons_of_mem x hy)
    by_cases hname : x.class_name = r.class_name
    · simp only [dedupInsert, if_pos hname]
      intro y hy
      rcases List.mem_cons.mp hy with hy | hy
      · subst hy
        constructor
        · split
          · exact List.mem_append_right _ (List.mem_singleton_self r)
          · exact List.mem_append_left _ hminx.1
        · intro z hz hzname
          have hyname : (if r.depth < x.depth then r else x).class_name = x.class_name := by
            split
            · exact hname.symm
            · rfl
          rw [hyname] at hzname
          rcases List.mem_append.mp hz with hz | hz
          · have hx := hminx.2 z hz hzname
            split
            · omega
            · exact hx
          · rw [List.mem_singleton.mp hz]
            split
            · rfl
            · rename_i hlt
              rw [List.mem_singleton.mp ‹z ∈ [r]›] at hzname
              omega
      · have hyx := hminxs y hy
        refine ⟨List.mem_append_left _ hyx.1, ?_⟩
        intro z hz hzname
        rcases List.mem_append.mp hz with hz | hz
        · exact hyx.2 z hz hzname
        · exfalso
          rw [List.mem_singleton.mp hz] at hzname
          simp only [List.map_cons, List.nodup_cons] at hnodup
          apply hnodup.1
          rw [hname, hzname]
          exact List.mem_map_of_mem ImplRow.class_name hy
    · simp only [dedupInsert, if_neg hname]
      intro y hy
      rcases List.mem_cons.mp hy with hy | hy
      · subst hy
        refine ⟨List.mem_append_left _ hminx.1, ?_⟩
        intro z hz hzname
        rcases List.mem_append.mp hz with hz | hz
        · exact hminx.2 z hz hzname
        · exfalso
          rw [List.mem_singleton.mp hz] at hzname
          exact hname hzname.symm
      · have hcov' : r.class_name ∈ xs.map ImplRow.class_name ∨
            ∀ z ∈ seen, z.class_name ≠ r.class_name := by
          rcases hcov with h | h
          · simp only [List.map_cons, List.mem_cons] at h
            rcases h with h | h
            · exact absurd h.symm hname
            · exact Or.inl h
          · exact Or.inr h
        have hnodup' : (xs.map ImplRow.class_name).Nodup := by
          simp only [List.map_cons, List.nodup_cons] at hnodup
          exact hnodup.2
        exact ih hnodup' hminxs hcov' y hy

theorem namesCover_dedupInsert {seen acc : List ImplRow} {r : ImplRow}
    (h : NamesCover seen acc) :
    NamesCover (seen ++ [r]) (dedupInsert acc r) := by
  intro x hx
  rw [name_mem_dedupInsert]
  rcases List.mem_append.mp hx with hx | hx
  · exact Or.inl (h x hx)
  · exact Or.inr (congrArg ImplRow.class_name (List.mem_singleton.mp hx))

/-- The whole `unique`-dict build satisfies all three invariants. -/
theorem foldl_dedupInsert_inv (l : List ImplRow) :
    ∀ (acc seen : List ImplRow),
      (acc.map ImplRow.class_name).Nodup →
      MinAcc seen acc →
      NamesCover seen acc →
      ((l.foldl dedupInsert acc).map ImplRow.class_name).Nodup ∧
      MinAcc (seen ++ l) (l.foldl dedupInsert acc) ∧
      NamesCover (seen ++ l) (l.foldl dedupInsert acc) := by
  induction l with
  | nil =>
    intro acc seen h1 h2 h3
    simpa using ⟨h1, h2, h3⟩
  | cons r l ih =>
    intro acc seen h1 h2 h3
    have hcov : r.class_name ∈ acc.map ImplRow.class_name ∨
        ∀ z ∈ seen, z.class_name ≠ r.class_name := by
      by_cases hr : r.class_name ∈ acc.map ImplRow.class_name
      · exact Or.inl hr
      · refine Or.inr fun z hz he => hr ?_
        rw [← he]
        exact h3 z hz
    have step := ih (dedupInsert acc r) (seen ++ [r])
      (nodup_dedupInsert r h1) (minAcc_dedupInsert h1 h2 hcov)
      (namesCover_dedupInsert h3)
    simpa [List.append_assoc] using step

/-- The sort key comparison is transitive. -/
theorem implLe_trans (a b c : ImplRow) (hab : implLe a b = true)
    (hbc : implLe b c = true) : implLe a c = true := by
  simp only [implLe, Bool.or_eq_true, Bool.and_eq_true, decide_eq_true_eq,
    beq_iff_eq] at *
  rcases hab with h1 | ⟨h1, h2⟩ <;> rcases hbc with h3 | ⟨h3, h4⟩
  · left; omega
  · left; omega
  · left; omega
  · exact Or.inr ⟨by omega, le_trans h2 h4⟩

/-- The sort key comparison is total. -/
theorem implLe_total (a b : ImplRow) : (implLe a b || implLe b a) = true := by
  simp only [implLe, Bool.or_eq_true, Bool.and_eq_true, decide_eq_true_eq,
    beq_iff_eq]
  rcases Nat.lt_trichotomy a.depth b.depth with h | h | h
  · exact Or.inl (Or.inl h)
  · rcases le_total a.class_name b.class_name with hs | hs
    · exact Or.inl (Or.inr ⟨h, hs⟩)
    · exact Or.inr (Or.inr ⟨h.symm, hs⟩)
  · exact Or.inr (Or.inl h)

/-- C6: `_deduplicate_implementations` keeps exactly one row per distinct
class name — a row of the input of minimal depth for that name — and the
result is sorted ascending by `(depth, class_name)`. -/
theorem dedup_min_depth_sorted (l : List ImplRow) :
    ((deduplicate_implementations l).map ImplRow.class_name).Nodup ∧
    (∀ r ∈ deduplicate_implementations l, r ∈ l ∧
      ∀ x ∈ l, x.class_name = r.class_name → r.depth ≤ x.depth) ∧
    (∀ x ∈ l, x.class_name ∈ (deduplicate_implementations l).map ImplRow.class_name) ∧
    (deduplicate_implementations l).Pairwise (fun a b => implLe a b = true) := by
  obtain ⟨h1, h2, h3⟩ := foldl_dedupInsert_inv l [] []
    (by simp) (by intro y hy; cases hy) (by intro x hx; cases hx)
  simp only [List.nil_append] at h2 h3
  have hperm : (deduplicate_implementations l).Perm (l.foldl dedupInsert []) :=
    List.mergeSort_perm (l.foldl dedupInsert []) implLe
  refine ⟨?_, ?_, ?_, ?_⟩
  · exact ((hperm.map ImplRow.class_name).nodup_iff).mpr h1
  · intro r hr
    exact h2 r (hperm.mem_iff.mp hr)
  · intro x hx
    exact ((hperm.map ImplRow.class_name).mem_iff).mpr (h3 x hx)
  · exact List.sorted_mergeSort implLe_trans implLe_total (l.foldl dedupInsert [])

/-- Witness for C2 at a concrete successful construction. -/
theorem envelope_xor_witness :
    mkResponseEnvelope true (some 1) none none "r" =
      .ok { success := true, data := some 1, error := none, code := none,
            request_id := "r" } :=
  (envelope_xor Nat true (some 1) none none "r"
    { success := true, data := some 1, error := none, code := none,
      request_id := "r" }).mpr ⟨rfl, by simp⟩

/-- Witness for C5 at a concrete member. -/
theorem errorcode_exactly_seven_witness :
    ErrorCode.TOOL_NOT_FOUND.val ∈
      ["TOOL_NOT_FOUND", "INVALID_ARGUMENTS", "EXECUTION_ERROR", "INTERNAL_ERROR",
        "TIMEOUT", "RATE_LIMITED", "SERVICE_UNAVAILABLE"] :=
  errorcode_exactly_seven.1 .TOOL_NOT_FOUND

/-- Witness for C6 at a concrete row list. -/
theorem dedup_min_depth_sorted_witness :
    ((deduplicate_implementations
        [{ class_name := "b", short_name := "b", depth := 3 },
         { class_name := "a", short_name := "a", depth := 2 },
         { class_name := "b", short_name := "b", depth := 1 }]).map
      ImplRow.class_name).Nodup ∧
    (∀ r ∈ deduplicate_implementations
        [{ class_name := "b", short_name := "b", depth := 3 },
         { class_name := "a", short_name := "a", depth := 2 },
         { class_name := "b", short_name := "b", depth := 1 }],
      r ∈ [({ class_name := "b", short_name := "b", depth := 3 } : ImplRow),
           { class_name := "a", short_name := "a", depth := 2 },
           { class_name := "b", short_name := "b", depth := 1 }] ∧
      ∀ x ∈ [({ class_name := "b", short_name := "b", depth := 3 } : ImplRow),
             { class_name := "a", short_name := "a", depth := 2 },
             { class_name := "b", short_name := "b", depth := 1 }],
        x.class_name = r.class_name → r.depth ≤ x.depth) ∧
    (∀ x ∈ [({ class_name := "b", short_name := "b", depth := 3 } : ImplRow),
            { class_name := "a", short_name := "a", depth := 2 },
            { class_name := "b", short_name := "b", depth := 1 }],
      x.class_name ∈ (deduplicate_implementations
        [{ class_name := "b", short_name := "b", depth := 3 },
         { class_name := "a", short_name := "a", depth := 2 },
         { class_name := "b", short_name := "b", depth := 1 }]).map ImplRow.class_name) ∧
    (deduplicate_implementations
        [{ class_name := "b", short_name := "b", depth := 3 },
         { class_name := "a", short_name := "a", depth := 2 },
         { class_name := "b", short_name := "b", depth := 1 }]).Pairwise
      (fun a b => implLe a b = true) :=
  dedup_min_depth_sorted
    [{ class_name := "b", short_name := "b", depth := 3 },
     { class_name := "a", short_name := "a", depth := 2 },
     { class_name := "b", short_name := "b", depth := 1 }]

end CodeGraphRag
